import Mathlib

/-!
Verification development for the retail-sales backend.

The definitions below are a shallow embedding of the backend's core
modules:

* `src/utils/cache.js` — the `SimpleCache` class (TTL cache and cache-key
  generation);
* `src/services/transactionService.js` — `getTransactions` (predicate
  builder and timeout-bounded query executor) and `getStats` (statistics
  aggregator);
* the CSV import service — `importTransactionsFromBuffer` (batching,
  skip-duplicates insert, progress reporting).

Modelling conventions:

* JS numbers that hold money are modelled as exact integers (amounts in the
  smallest currency unit; the spec demands the Decimal → Number conversion be
  exact, and the modelled paths only ever add and subtract amounts), counts
  and ages as `Int`/`Nat`.
* Calendar dates are modelled as integers, ordered chronologically.
* `Map` objects are modelled as association lists whose `set` overwrites in
  place, matching insertion-order semantics.
* A storage call is an `OpBehavior`: a `slow` flag saying whether the
  operation exceeds the 15-second deadline, and the eventual settled
  result.  `Promise.race` against the timeout is `race`; a plain `await`
  (no deadline) is `await`.
-/

/-! ### JS string helpers -/

/-- Substring containment, as Prisma's `contains` / JS `String.includes`:
`strContainsSub hay needle` is true when `needle` occurs contiguously in
`hay`. -/
def strContainsSub (hay needle : String) : Bool :=
  (List.range (hay.data.length + 1)).any fun i => needle.data.isPrefixOf (hay.data.drop i)

/-- `String.prototype.trim`: drop whitespace from both ends. -/
def jsTrim (s : String) : String :=
  String.mk (((s.data.dropWhile Char.isWhitespace).reverse.dropWhile Char.isWhitespace).reverse)

/-- Decidable equality for settled promise results, so concrete runs can be
checked by evaluation. -/
instance {ε α : Type} [DecidableEq ε] [DecidableEq α] : DecidableEq (Except ε α) := fun a b =>
  match a, b with
  | .error e₁, .error e₂ =>
      if h : e₁ = e₂ then isTrue (by rw [h]) else isFalse (by intro hh; cases hh; exact h rfl)
  | .error _, .ok _ => isFalse (by intro hh; cases hh)
  | .ok _, .error _ => isFalse (by intro hh; cases hh)
  | .ok v₁, .ok v₂ =>
      if h : v₁ = v₂ then isTrue (by rw [h]) else isFalse (by intro hh; cases hh; exact h rfl)

/-! ### Cache keys (`SimpleCache.generateKey`, src/utils/cache.js lines 15–24)

`generateKey` runs `JSON.stringify` on the filters object with a replacer
that sorts every array in place.  The filters objects this is applied to
are flat: every property is a scalar, `null`, or an array of scalars, so
the JSON value model is stratified accordingly.  JS `Array.prototype.sort`
with no comparator sorts by the `String(·)` image of the elements
(UTF-16 lexicographic), and is stable. -/

/-- A scalar JSON value appearing inside a filters object. -/
inductive JAtom where
  | str (s : String)
  | num (n : Int)
deriving DecidableEq, Repr

/-- One property value of a filters object. -/
inductive JField where
  | atom (a : JAtom)
  | arr (xs : List JAtom)
  | null
deriving DecidableEq, Repr

/-- A filters object: properties in insertion order. -/
abbrev JObj := List (String × JField)

/-- `String(a)` — the string JS's default sort comparator compares by. -/
def jsKeyAtom : JAtom → String
  | .str s => s
  | .num n => toString n

/-- Lexicographic comparison of two character sequences by code unit, as
JS compares the `String(·)` images of array elements. -/
def charListLe : List Char → List Char → Bool
  | [], _ => true
  | _ :: _, [] => false
  | a :: as, b :: bs => if a.toNat = b.toNat then charListLe as bs else decide (a.toNat < b.toNat)

/-- The comparator JS's default `sort()` effectively uses. -/
def jatomLe (a b : JAtom) : Bool := charListLe (jsKeyAtom a).data (jsKeyAtom b).data

/-- `value.sort()` inside the replacer: JS's default sort is stable and
compares by `String(·)`; a stable sort under this total preorder is
extensionally unique, so the model uses a stable insertion sort. -/
def sortJsArr (xs : List JAtom) : List JAtom :=
  List.insertionSort (fun a b => jatomLe a b = true) xs

/-- JSON string escaping (quote and backslash; the filter values contain no
control characters). -/
def escapeJson (s : String) : String :=
  String.mk (s.data.foldr
    (fun c acc =>
      if c = '"' then '\\' :: '"' :: acc
      else if c = '\\' then '\\' :: '\\' :: acc
      else c :: acc) [])

def quoteJson (s : String) : String := "\"" ++ escapeJson s ++ "\""

def stringifyAtom : JAtom → String
  | .str s => quoteJson s
  | .num n => toString n

/-- `JSON.stringify` of one property value, with the array-sorting
replacer applied. -/
def stringifyField : JField → String
  | .atom a => stringifyAtom a
  | .arr xs => "[" ++ String.intercalate "," ((sortJsArr xs).map stringifyAtom) ++ "]"
  | .null => "null"

/-- `JSON.stringify` of the whole filters object: properties serialized in
insertion order. -/
def stringifyObj (o : JObj) : String :=
  "\x7b" ++ String.intercalate "," (o.map fun f => quoteJson f.1 ++ ":" ++ stringifyField f.2) ++ "\x7d"

/-! ### The TTL cache (`SimpleCache`, src/utils/cache.js) -/

/-- One cache entry: the stored value and its absolute expiry instant. -/
structure CacheEntry (α : Type) where
  value : α
  expiresAt : Int
deriving DecidableEq, Repr

/-- The backing `Map` of the cache, as an association list in insertion
order. -/
abbrev CacheMap (α : Type) := List (String × CacheEntry α)

namespace SimpleCache

/-- `Map.prototype.get`. -/
def mapFind {α : Type} : CacheMap α → String → Option (CacheEntry α)
  | [], _ => none
  | (k, e) :: rest, key => if k = key then some e else mapFind rest key

/-- `Map.prototype.set` (overwrites in place). -/
def mapSet {α : Type} : CacheMap α → String → CacheEntry α → CacheMap α
  | [], key, e => [(key, e)]
  | (k, e0) :: rest, key, e => if k = key then (key, e) :: rest else (k, e0) :: mapSet rest key e

/-- `Map.prototype.delete`. -/
def mapDelete {α : Type} : CacheMap α → String → CacheMap α
  | [], _ => []
  | (k, e) :: rest, key => if k = key then rest else (k, e) :: mapDelete rest key

/-- `generateKey(prefix, filters)` (lines 15–24): prefix, colon, then the
canonical-arrays serialization of the filters. -/
def generateKey (pre : String) (filters : JObj) : String :=
  pre ++ ":" ++ stringifyObj filters

/-- `get(key)` (lines 29–40).  Returns the value looked up together with the
cache state afterwards (the code deletes an entry it found expired). -/
def get {α : Type} (now : Int) (m : CacheMap α) (key : String) : Option α × CacheMap α :=
  match mapFind m key with
  | none => (none, m)
  | some item =>
      if now > item.expiresAt then (none, mapDelete m key)
      else (some item.value, m)

/-- `set(key, value, ttl)` (lines 45–50): stores with `expiresAt = now + ttl`. -/
def set {α : Type} (now : Int) (m : CacheMap α) (key : String) (v : α) (ttl : Int) : CacheMap α :=
  mapSet m key ⟨v, now + ttl⟩

/-- `clear()` (lines 55–57). -/
def clear {α : Type} : CacheMap α := []

/-- `clean()` (lines 62–69): drop every entry with `now > expiresAt`. -/
def clean {α : Type} (now : Int) (m : CacheMap α) : CacheMap α :=
  m.filter fun kv => decide (now ≤ kv.2.expiresAt)

end SimpleCache

/-! ### Data model (prisma `Transaction`, fields the core reads) -/

/-- A stored transaction record.  Only the fields the predicate builder,
the read query's `select`, and the stats aggregate touch are modelled;
the remaining columns never influence the verified behaviour. -/
structure Transaction where
  transactionId : String
  date : Int
  customerId : String
  customerName : String
  phoneNumber : String
  gender : String
  age : Int
  productCategory : String
  quantity : Int
  totalAmount : Int
  finalAmount : Int
  customerRegion : String
  productId : String
  employeeName : String
  paymentMethod : String
  tags : Option String
deriving DecidableEq, Repr

/-- The loosely-typed `filters` object both services receive.  Each
sub-filter is absent (`none`, the property deleted by the controller) or
present with its raw array. -/
structure Filters where
  regions : Option (List String)
  genders : Option (List String)
  ageRange : Option (List Int)
  categories : Option (List String)
  tags : Option (List String)
  paymentMethods : Option (List String)
  dateRange : Option (List Int)
deriving DecidableEq, Repr

def emptyFilters : Filters := ⟨none, none, none, none, none, none, none⟩

/-- The filters object as the JSON value `cache.generateKey` serializes,
with the controller's property insertion order. -/
def filtersToJObj (f : Filters) : JObj :=
  List.filterMap id [
    f.regions.map fun l => ("regions", JField.arr (l.map JAtom.str)),
    f.genders.map fun l => ("genders", JField.arr (l.map JAtom.str)),
    f.ageRange.map fun l => ("ageRange", JField.arr (l.map JAtom.num)),
    f.categories.map fun l => ("categories", JField.arr (l.map JAtom.str)),
    f.tags.map fun l => ("tags", JField.arr (l.map JAtom.str)),
    f.paymentMethods.map fun l => ("paymentMethods", JField.arr (l.map JAtom.str)),
    f.dateRange.map fun l => ("dateRange", JField.arr (l.map JAtom.num))]

/-! ### Predicate builder (`getTransactions` lines 20–143, `getStats`
lines 316–357)

The `where` clause is a conjunction of conditions pushed onto
`andConditions`; each condition is one of the shapes the source builds. -/

/-- One condition of the `AND` list. -/
inductive Cond where
  /-- `phoneNumber: { startsWith: s }` -/
  | phoneStartsWith (s : String)
  /-- `customerName: { startsWith: s, mode: "insensitive" }` -/
  | nameStartsWithCI (s : String)
  /-- `OR` of `tags: { contains: t }` for each requested tag -/
  | tagsContainsAny (ts : List String)
  /-- `customerRegion: { in: rs }` -/
  | regionIn (rs : List String)
  /-- `gender: { in: gs }` -/
  | genderIn (gs : List String)
  /-- `age: { gte: lo, lte: hi }` -/
  | ageBetween (lo hi : Int)
  /-- `productCategory: { in: cs }` -/
  | categoryIn (cs : List String)
  /-- `paymentMethod: { in: ps }` -/
  | paymentIn (ps : List String)
  /-- `date: { gte: lo, lte: hi }` -/
  | dateBetween (lo hi : Int)
deriving DecidableEq, Repr

/-- Does a record satisfy one condition?  `tags` is a nullable column and a
`contains` filter never matches a NULL. -/
def condHolds (t : Transaction) : Cond → Bool
  | .phoneStartsWith s => t.phoneNumber.startsWith s
  | .nameStartsWithCI s => t.customerName.toLower.startsWith s.toLower
  | .tagsContainsAny ts =>
      match t.tags with
      | none => false
      | some tagStr => ts.any fun tag => strContainsSub tagStr tag
  | .regionIn rs => rs.contains t.customerRegion
  | .genderIn gs => gs.contains t.gender
  | .ageBetween lo hi => decide (lo ≤ t.age) && decide (t.age ≤ hi)
  | .categoryIn cs => cs.contains t.productCategory
  | .paymentIn ps => ps.contains t.paymentMethod
  | .dateBetween lo hi => decide (lo ≤ t.date) && decide (t.date ≤ hi)

/-- A record matches the built `where` clause when every condition of the
`AND` list holds (an empty list matches everything). -/
def matchesWhere (conds : List Cond) (t : Transaction) : Bool :=
  conds.all (condHolds t)

/-- The search conditions of `getTransactions` (lines 27–70).  A trimmed
term of length ≥ 2 that is all digits becomes a phone-number prefix
condition; otherwise the first whitespace-separated word becomes a
case-insensitive customer-name prefix condition (both the single-word and
multi-word branches of the source push the same condition).  A
single-character term becomes a phone-number prefix condition. -/
def searchConds (search : String) : List Cond :=
  let t := jsTrim search
  if search ≠ "" ∧ 2 ≤ t.length then
    if t.data ≠ [] ∧ t.data.all Char.isDigit then
      [Cond.phoneStartsWith t]
    else
      match (t.split Char.isWhitespace).filter (fun w => 0 < w.length) with
      | w :: _ => [Cond.nameStartsWithCI w]
      | [] => []
  else if search ≠ "" ∧ t.length = 1 then
    [Cond.phoneStartsWith t]
  else []

/-- The sub-filter conditions of `getTransactions` (lines 72–138), in the
order the source pushes them. -/
def filterConds (f : Filters) : List Cond :=
  (match f.tags with
   | some ts => if 0 < ts.length then [Cond.tagsContainsAny ts] else []
   | none => []) ++
  (match f.regions with
   | some rs => if 0 < rs.length then [Cond.regionIn rs] else []
   | none => []) ++
  (match f.genders with
   | some gs => if 0 < gs.length then [Cond.genderIn gs] else []
   | none => []) ++
  (match f.ageRange with
   | some [lo, hi] => [Cond.ageBetween lo hi]
   | some _ => []
   | none => []) ++
  (match f.categories with
   | some cs => if 0 < cs.length then [Cond.categoryIn cs] else []
   | none => []) ++
  (match f.paymentMethods with
   | some ps => if 0 < ps.length then [Cond.paymentIn ps] else []
   | none => []) ++
  (match f.dateRange with
   | some [lo, hi] => [Cond.dateBetween lo hi]
   | some _ => []
   | none => [])

/-- The full `AND` list `getTransactions` builds: search conditions first,
then the sub-filters. -/
def buildConds (search : String) (f : Filters) : List Cond :=
  searchConds search ++ filterConds f

/-- The `AND` list `getStats` builds (lines 320–352): regions, genders,
age range, categories, payment methods, date range — the source pushes no
condition for the `tags` sub-filter and has no search term. -/
def statsConds (f : Filters) : List Cond :=
  (match f.regions with
   | some rs => if 0 < rs.length then [Cond.regionIn rs] else []
   | none => []) ++
  (match f.genders with
   | some gs => if 0 < gs.length then [Cond.genderIn gs] else []
   | none => []) ++
  (match f.ageRange with
   | some [lo, hi] => [Cond.ageBetween lo hi]
   | some _ => []
   | none => []) ++
  (match f.categories with
   | some cs => if 0 < cs.length then [Cond.categoryIn cs] else []
   | none => []) ++
  (match f.paymentMethods with
   | some ps => if 0 < ps.length then [Cond.paymentIn ps] else []
   | none => []) ++
  (match f.dateRange with
   | some [lo, hi] => [Cond.dateBetween lo hi]
   | some _ => []
   | none => [])

/-- The records of a store matching a `where` clause. -/
def matchingRecords (store : List Transaction) (conds : List Cond) : List Transaction :=
  store.filter (matchesWhere conds)

/-! ### Storage collaborator and the 15-second deadline -/

/-- The behaviour of one storage operation: whether it exceeds the
15-second deadline, and the result it eventually settles with.  (The
source creates one shared timeout promise per request and races each
operation against it; the model gives each operation its own deadline
flag, which covers every per-operation timing the claims speak about.) -/
structure OpBehavior (α : Type) where
  slow : Bool
  result : Except String α
deriving Repr

/-- `Promise.race([op, timeoutPromise])` (lines 163–166, 194, 204): a slow
operation is replaced by a rejection with the message "Query timeout";
otherwise the operation's own settled result comes back. -/
def race {α : Type} (b : OpBehavior α) : Except String α :=
  if b.slow then .error "Query timeout" else b.result

/-- A plain `await` with no deadline (the stats path): the operation's
settled result, however long it takes. -/
def awaitOp {α : Type} (b : OpBehavior α) : Except String α :=
  b.result

/-- The combined `_sum` aggregate row: one pass returns all three sums
(`quantity`, `totalAmount`, `finalAmount`).  An empty match set gives
NULL sums which `|| 0` coalesces to 0; the model's sums are 0 there
directly. -/
structure AggSums where
  quantity : Int
  totalAmount : Int
  finalAmount : Int
deriving DecidableEq, Repr

/-- `orderBy` clause (lines 146–159). -/
inductive OrderBy where
  | date (dir : String)
  | quantity (dir : String)
  | customerName (dir : String)
deriving DecidableEq, Repr

/-- `switch (sortBy)`: unrecognized fields fall back to
`customerName` ascending. -/
def buildOrderBy (sortField sortOrder : String) : OrderBy :=
  match sortField with
  | "date" => .date sortOrder
  | "quantity" => .quantity sortOrder
  | "customerName" => .customerName sortOrder
  | _ => .customerName "asc"

/-- The storage collaborator (the prisma client), as the behaviour of each
operation the services issue.  The `where` clause each operation receives
is explicit, so "the count runs over the same predicate as the fetch" is
visible in the call sites below. -/
structure Storage where
  findMany : List Cond → OrderBy → Int → Int → OpBehavior (List Transaction)
  count : List Cond → OpBehavior Int
  aggregate : List Cond → OpBehavior AggSums

/-- A storage collaborator whose aggregate answers instantly and honestly
from a concrete store (used to state denotational properties of
`getStats`); its read operations return nothing. -/
def aggStorage (store : List Transaction) : Storage where
  findMany := fun _ _ _ _ => ⟨false, .ok []⟩
  count := fun conds => ⟨false, .ok ((matchingRecords store conds).length : Int)⟩
  aggregate := fun conds =>
    ⟨false, .ok ((matchingRecords store conds).foldl
      (fun acc t => ⟨acc.quantity + t.quantity, acc.totalAmount + t.totalAmount,
                     acc.finalAmount + t.finalAmount⟩)
      ⟨0, 0, 0⟩)⟩

/-! ### Query executor (`getTransactions`, lines 9–241) -/

/-- `Math.ceil(a / b)` on integers (b positive in every use). -/
def ceilDivInt (a b : Int) : Int := -(Int.fdiv (-a) b)

/-- The pagination metadata of a response. -/
structure PageInfo where
  page : Int
  pageSize : Int
  totalCount : Int
  totalPages : Int
deriving DecidableEq, Repr

/-- The value `getTransactions` resolves with.  The records pass through a
Decimal → number and date → calendar-string conversion the model's field
types already embody. -/
structure QueryResult where
  transactions : List Transaction
  pagination : PageInfo
deriving DecidableEq, Repr

/-- A run of `getTransactions` together with whether a separate count
query was issued (false when the first-page optimization inferred the
total from the fetched rows). -/
structure RunResult where
  result : QueryResult
  countQueried : Bool
deriving DecidableEq, Repr

/-- `error.message === "Query timeout" || error.message.includes("timeout")
|| error.message.includes("statement timeout")` (line 225). -/
def isTimeoutMessage (m : String) : Bool :=
  m == "Query timeout" || strContainsSub m "timeout" || strContainsSub m "statement timeout"

/-- The empty degraded page the catch block returns on a timeout
(lines 228–236). -/
def emptyPage (page pageSize : Int) : QueryResult :=
  ⟨[], ⟨page, pageSize, 0, 0⟩⟩

/-- `getTransactions` (lines 9–241).  The fetch runs first under the
deadline; if the first page came back smaller than the page size the total
is inferred from it, otherwise a count query over the same `where` clause
runs under the deadline.  A caught error whose message mentions a timeout
degrades to an empty page; any other error propagates. -/
def getTransactionsRun (page pageSize : Int) (search : String) (filters : Filters)
    (sortField sortOrder : String) (db : Storage) : Except String RunResult :=
  let skip := (page - 1) * pageSize
  let take := pageSize
  let conds := buildConds search filters
  let ob := buildOrderBy sortField sortOrder
  match race (db.findMany conds ob skip take) with
  | .error m =>
      if isTimeoutMessage m then .ok ⟨emptyPage page pageSize, false⟩ else .error m
  | .ok transactions =>
      if (transactions.length : Int) < take ∧ skip = 0 then
        .ok ⟨⟨transactions, ⟨page, pageSize, (transactions.length : Int),
              ceilDivInt (transactions.length : Int) pageSize⟩⟩, false⟩
      else
        match race (db.count conds) with
        | .error m =>
            if isTimeoutMessage m then .ok ⟨emptyPage page pageSize, true⟩ else .error m
        | .ok n =>
            .ok ⟨⟨transactions, ⟨page, pageSize, n, ceilDivInt n pageSize⟩⟩, true⟩

/-! ### Stats aggregator (`getStats`, lines 308–384) -/

/-- The value `getStats` resolves with. -/
structure StatsResult where
  totalUnits : Int
  totalAmount : Int
  totalDiscount : Int
deriving DecidableEq, Repr

/-- `getStats` (lines 308–384).  Consults the cache under the generated
key; on a miss it awaits the combined aggregate (no deadline, no catch —
every storage failure propagates), derives the three totals, caches them
for 30 seconds, and returns them.  The returned flag records whether
storage was touched. -/
def getStatsRun (db : Storage) (now : Int) (cacheSt : CacheMap StatsResult)
    (filters : Filters) : Except String (StatsResult × CacheMap StatsResult × Bool) :=
  let cacheKey := SimpleCache.generateKey "stats" (filtersToJObj filters)
  let looked := SimpleCache.get now cacheSt cacheKey
  match looked.1 with
  | some cached => .ok (cached, looked.2, false)
  | none =>
      match awaitOp (db.aggregate (statsConds filters)) with
      | .error m => .error m
      | .ok sums =>
          let totalUnits := sums.quantity
          let totalAmount := sums.totalAmount
          let totalDiscount := totalAmount - sums.finalAmount
          let result : StatsResult := ⟨totalUnits, totalAmount, totalDiscount⟩
          .ok (result, SimpleCache.set now looked.2 cacheKey result (30 * 1000), true)

/-! ### Ingestion pipeline (`importTransactionsFromBuffer`,
csv-import service lines 141–224)

The CSV library call and the per-record field mapping are abstracted as a
`mapRow` function on parsed rows: the per-record `try/catch` returns
`none` for a row that throws during mapping (such a row is filtered out of
its batch and reaches neither counter).  Of the mapped record only the
unique business identifier matters to control flow, through the storage's
uniqueness constraint. -/

/-- A mapped record ready for `createMany`; columns other than the unique
business identifier never influence counters, batching or deduplication. -/
structure TxData where
  transactionId : String
deriving DecidableEq, Repr

/-- `createMany({ data, skipDuplicates: true })` applied to a store:
rows conflicting with an existing `transactionId` (or one inserted earlier
in the same operation) are silently skipped, the rest are appended. -/
def createManySkipDup (store : List TxData) (data : List TxData) : List TxData :=
  data.foldl
    (fun st d => if st.any (fun r => r.transactionId == d.transactionId) then st else st ++ [d])
    store

/-- One progress notification (lines 201–208). -/
structure Progress where
  processed : Nat
  total : Nat
  imported : Nat
  errors : Nat
deriving DecidableEq, Repr

/-- The summary object the import resolves with (lines 214–219). -/
structure ImportResult where
  success : Bool
  totalRecords : Nat
  imported : Nat
  errors : Nat
deriving DecidableEq, Repr

/-- The batch loop (lines 154–209).  `i` is the loop counter (the index of
the first row of the current batch), `total` the parsed row count.  Each
iteration maps the next 1000 rows (dropping rows whose mapping throws),
then attempts one `createMany` with `skipDuplicates`; `insertOk i` says
whether that insert operation succeeds as a whole.  On success `imported`
grows by the number of mapped rows handed to the insert (the source adds
`transactionData.length`, not the insert's returned count); on failure
`errors` grows by the full raw batch size.  After each batch a progress
notification is emitted. -/
def importGo {Row : Type} (mapRow : Row → Option TxData) (insertOk : Nat → Bool)
    (total : Nat) (i : Nat) (remaining : List Row) (store : List TxData)
    (imported errors : Nat) : Nat × Nat × List TxData × List Progress :=
  match hrem : remaining with
  | [] => (imported, errors, store, [])
  | _ :: _ =>
      let batch := remaining.take 1000
      let transactionData := batch.filterMap mapRow
      let next :=
        if insertOk i then (createManySkipDup store transactionData, imported + transactionData.length, errors)
        else (store, imported, errors + batch.length)
      let prog : Progress := ⟨min (i + 1000) total, total, next.2.1, next.2.2⟩
      let rec_result := importGo mapRow insertOk total (i + 1000) (remaining.drop 1000) next.1 next.2.1 next.2.2
      (rec_result.1, rec_result.2.1, rec_result.2.2.1, prog :: rec_result.2.2.2)
termination_by remaining.length
decreasing_by
  simp [hrem, List.length_drop]
  omega

/-- `importTransactionsFromBuffer` (lines 141–224): run the batch loop
over the parsed rows, clear the whole cache, and resolve with the summary.
Returned: the summary, the store afterwards, the progress notifications in
emission order, and the cache afterwards. -/
def importTransactionsFromBuffer {Row : Type} (mapRow : Row → Option TxData)
    (records : List Row) (insertOk : Nat → Bool) (store : List TxData)
    (cacheSt : CacheMap StatsResult) :
    ImportResult × List TxData × List Progress × CacheMap StatsResult :=
  let _ := cacheSt
  let totalRecords := records.length
  let run := importGo mapRow insertOk totalRecords 0 records store 0 0
  (⟨true, totalRecords, run.1, run.2.1⟩, run.2.2.1, run.2.2.2, SimpleCache.clear)

/-- The batches of the loop: successive groups of 1000 rows. -/
def batchesOf {Row : Type} : List Row → List (List Row)
  | [] => []
  | a :: rest => (a :: rest).take 1000 :: batchesOf ((a :: rest).drop 1000)
termination_by l => l.length
decreasing_by
  simp [List.length_drop]
  omega

/-- Total `imported` contributed by a run of batches starting at loop
counter `i`: a batch whose insert succeeds contributes its mapped-row
count. -/
def importedOfBatches {Row : Type} (mapRow : Row → Option TxData) (insertOk : Nat → Bool)
    (i : Nat) : List (List Row) → Nat
  | [] => 0
  | b :: bs =>
      (if insertOk i then (b.filterMap mapRow).length else 0) +
        importedOfBatches mapRow insertOk (i + 1000) bs

/-- Total `errors` contributed by a run of batches starting at loop
counter `i`: a batch whose insert fails contributes its full raw size. -/
def errorsOfBatches {Row : Type} (mapRow : Row → Option TxData) (insertOk : Nat → Bool)
    (i : Nat) : List (List Row) → Nat
  | [] => 0
  | b :: bs =>
      (if insertOk i then 0 else b.length) + errorsOfBatches mapRow insertOk (i + 1000) bs

/-! ### Helper lemmas: search routing -/

/-- A digit character is not whitespace. -/
theorem digit_not_whitespace (c : Char) (h : c.isDigit = true) : c.isWhitespace = false := by
  simp only [Char.isWhitespace, Bool.or_eq_false_iff, decide_eq_false_iff_not]
  refine ⟨⟨⟨?_, ?_⟩, ?_⟩, ?_⟩ <;>
  · intro hc
    subst hc
    exact absurd h (by decide)

/-- `dropWhile` keeps a list whose head fails the test. -/
theorem dropWhile_eq_self_of_head {p : Char → Bool} : ∀ {l : List Char},
    (∀ c ∈ l, p c = false) → l.dropWhile p = l := by
  intro l h
  cases l with
  | nil => rfl
  | cons a rest =>
      rw [List.dropWhile_cons, h a (List.mem_cons_self a rest)]
      simp

/-- Trimming a string of digits changes nothing. -/
theorem jsTrim_of_digits (s : String) (h : s.data.all Char.isDigit) : jsTrim s = s := by
  have hws : ∀ c ∈ s.data, c.isWhitespace = false := by
    intro c hc
    exact digit_not_whitespace c (List.all_eq_true.mp h c hc)
  apply String.ext
  show (((s.data.dropWhile Char.isWhitespace).reverse.dropWhile Char.isWhitespace).reverse) = s.data
  rw [dropWhile_eq_self_of_head hws]
  rw [dropWhile_eq_self_of_head (fun c hc => hws c (List.mem_reverse.mp hc))]
  exact List.reverse_reverse s.data

/-- A string with at least two characters is not empty. -/
theorem ne_empty_of_two_le_length (s : String) (h : 2 ≤ s.length) : s ≠ "" := by
  intro hs
  subst hs
  simp [String.length] at h

/-- On an all-digit search term of length at least 2, the search routing
produces exactly one condition: a phone-number prefix match on the term. -/
theorem searchConds_digits (s : String) (h2 : 2 ≤ s.length)
    (hd : s.data.all Char.isDigit) : searchConds s = [Cond.phoneStartsWith s] := by
  have hne : s ≠ "" := ne_empty_of_two_le_length s h2
  have htrim : jsTrim s = s := jsTrim_of_digits s hd
  have hdata : s.data ≠ [] := by
    intro hnil
    exact hne (String.ext hnil)
  unfold searchConds
  rw [htrim, if_pos ⟨hne, h2⟩, if_pos ⟨hdata, hd⟩]

/-- The sub-filter builder never emits a customer-name condition. -/
theorem nameCond_not_mem_filterConds (f : Filters) (s : String) :
    Cond.nameStartsWithCI s ∉ filterConds f := by
  intro hmem
  unfold filterConds at hmem
  simp only [List.mem_append] at hmem
  rcases hmem with ((((((h | h) | h) | h) | h) | h) | h) <;>
  · split at h <;> first | (split at h <;> simp_all) | simp_all

/-- The sub-filter builder never emits a phone-number condition either. -/
theorem phoneCond_not_mem_filterConds (f : Filters) (s : String) :
    Cond.phoneStartsWith s ∉ filterConds f := by
  intro hmem
  unfold filterConds at hmem
  simp only [List.mem_append] at hmem
  rcases hmem with ((((((h | h) | h) | h) | h) | h) | h) <;>
  · split at h <;> first | (split at h <;> simp_all) | simp_all

/-! ### Helper lemmas: the cache map -/

namespace SimpleCache

theorem mapFind_mapSet_self {α : Type} (m : CacheMap α) (key : String) (e : CacheEntry α) :
    mapFind (mapSet m key e) key = some e := by
  induction m with
  | nil => simp [mapSet, mapFind]
  | cons kv rest ih =>
      by_cases hk : kv.1 = key
      · simp [mapSet, hk, mapFind]
      · simp [mapSet, hk, mapFind, ih]

end SimpleCache

/-! ### Helper lemmas: aggregate sums -/

/-- The total quantity over the records matching a `where` clause. -/
def sumQuantity (store : List Transaction) (conds : List Cond) : Int :=
  ((matchingRecords store conds).map (fun t => t.quantity)).sum

/-- The total gross amount over the records matching a `where` clause. -/
def sumGross (store : List Transaction) (conds : List Cond) : Int :=
  ((matchingRecords store conds).map (fun t => t.totalAmount)).sum

/-- The total net amount over the records matching a `where` clause. -/
def sumNet (store : List Transaction) (conds : List Cond) : Int :=
  ((matchingRecords store conds).map (fun t => t.finalAmount)).sum

/-- The statistics `getStats` should report for a store and `where`
clause: total units, total gross amount, and total gross minus total
net. -/
def statsOfStore (store : List Transaction) (conds : List Cond) : StatsResult :=
  ⟨sumQuantity store conds, sumGross store conds, sumGross store conds - sumNet store conds⟩

/-- The single combined fold computes the three sums at once. -/
theorem foldl_agg (l : List Transaction) (q a f : Int) :
    l.foldl (fun acc t => AggSums.mk (acc.quantity + t.quantity) (acc.totalAmount + t.totalAmount)
        (acc.finalAmount + t.finalAmount)) ⟨q, a, f⟩
      = ⟨q + (l.map (fun t => t.quantity)).sum, a + (l.map (fun t => t.totalAmount)).sum,
         f + (l.map (fun t => t.finalAmount)).sum⟩ := by
  induction l generalizing q a f with
  | nil => simp
  | cons t ts ih =>
      simp only [List.foldl_cons, List.map_cons, List.sum_cons, ih, AggSums.mk.injEq]
      refine ⟨by ring, by ring, by ring⟩

/-- The aggregate of the honest storage is the three sums over the
matching records. -/
theorem aggStorage_aggregate (store : List Transaction) (conds : List Cond) :
    (aggStorage store).aggregate conds
      = ⟨false, .ok ⟨sumQuantity store conds, sumGross store conds, sumNet store conds⟩⟩ := by
  unfold aggStorage
  simp only
  rw [foldl_agg]
  simp [sumQuantity, sumGross, sumNet]

/-- Summing per-record differences equals the difference of the sums. -/
theorem sum_map_sub_tx (l : List Transaction) :
    (l.map (fun t => t.totalAmount - t.finalAmount)).sum
      = (l.map (fun t => t.totalAmount)).sum - (l.map (fun t => t.finalAmount)).sum := by
  induction l with
  | nil => simp
  | cons t ts ih =>
      simp only [List.map_cons, List.sum_cons, ih]
      ring

/-! ### Helper lemmas: the canonicalizing sort of `generateKey` -/

theorem char_toNat_inj {a b : Char} (h : a.toNat = b.toNat) : a = b :=
  Char.ext (UInt32.ext h)

theorem charListLe_total : ∀ as bs : List Char, charListLe as bs = true ∨ charListLe bs as = true := by
  intro as
  induction as with
  | nil => intro bs; left; simp [charListLe]
  | cons a as ih =>
      intro bs
      cases bs with
      | nil => right; simp [charListLe]
      | cons b bs =>
          by_cases hab : a.toNat = b.toNat
          · rcases ih bs with hl | hr
            · left; simp [charListLe, hab, hl]
            · right; simp [charListLe, hab.symm, hr]
          · rcases Nat.lt_or_gt_of_ne hab with hlt | hgt
            · left; simp [charListLe, hab, hlt]
            · right; simp [charListLe, Ne.symm hab, hgt]

theorem charListLe_trans : ∀ as bs cs : List Char,
    charListLe as bs = true → charListLe bs cs = true → charListLe as cs = true := by
  intro as
  induction as with
  | nil => intro bs cs _ _; simp [charListLe]
  | cons a as ih =>
      intro bs cs h1 h2
      cases bs with
      | nil => simp [charListLe] at h1
      | cons b bs =>
          cases cs with
          | nil => simp [charListLe] at h2
          | cons c cs =>
              simp only [charListLe] at h1 h2 ⊢
              by_cases hab : a.toNat = b.toNat <;> by_cases hbc : b.toNat = c.toNat
              · rw [if_pos hab] at h1
                rw [if_pos hbc] at h2
                rw [if_pos (hab.trans hbc)]
                exact ih bs cs h1 h2
              · rw [if_pos hab] at h1
                rw [if_neg hbc, decide_eq_true_eq] at h2
                have hac : a.toNat ≠ c.toNat := by omega
                rw [if_neg hac, decide_eq_true_eq]
                omega
              · rw [if_neg hab, decide_eq_true_eq] at h1
                rw [if_pos hbc] at h2
                have hac : a.toNat ≠ c.toNat := by omega
                rw [if_neg hac, decide_eq_true_eq]
                omega
              · rw [if_neg hab, decide_eq_true_eq] at h1
                rw [if_neg hbc, decide_eq_true_eq] at h2
                have hac : a.toNat ≠ c.toNat := by omega
                rw [if_neg hac, decide_eq_true_eq]
                omega

theorem charListLe_antisymm : ∀ as bs : List Char,
    charListLe as bs = true → charListLe bs as = true → as = bs := by
  intro as
  induction as with
  | nil =>
      intro bs h1 h2
      cases bs with
      | nil => rfl
      | cons b bs => simp [charListLe] at h2
  | cons a as ih =>
      intro bs h1 h2
      cases bs with
      | nil => simp [charListLe] at h1
      | cons b bs =>
          simp only [charListLe] at h1 h2
          by_cases hab : a.toNat = b.toNat
          · rw [if_pos hab] at h1
            rw [if_pos hab.symm] at h2
            rw [char_toNat_inj hab, ih bs h1 h2]
          · rw [if_neg hab, decide_eq_true_eq] at h1
            rw [if_neg (Ne.symm hab), decide_eq_true_eq] at h2
            omega

instance : IsTotal JAtom (fun a b => jatomLe a b = true) :=
  ⟨fun a b => charListLe_total (jsKeyAtom a).data (jsKeyAtom b).data⟩

instance : IsTrans JAtom (fun a b => jatomLe a b = true) :=
  ⟨fun a b c => charListLe_trans (jsKeyAtom a).data (jsKeyAtom b).data (jsKeyAtom c).data⟩

/-- Two lists that are permutations of each other and have the same
duplicate-free image under `f` are equal. -/
theorem eq_of_perm_of_map_eq_nodup {α β : Type} (f : α → β) :
    ∀ {l₁ l₂ : List α}, l₁.Perm l₂ → l₁.map f = l₂.map f → (l₁.map f).Nodup → l₁ = l₂ := by
  intro l₁
  induction l₁ with
  | nil =>
      intro l₂ hp _ _
      exact hp.nil_eq
  | cons a t ih =>
      intro l₂ hp hm hnd
      cases l₂ with
      | nil => simpa using hp.length_eq
      | cons b t₂ =>
          simp only [List.map_cons, List.cons.injEq] at hm
          obtain ⟨hab, hts⟩ := hm
          rw [List.map_cons, List.nodup_cons] at hnd
          obtain ⟨hnotin, hndt⟩ := hnd
          have hain : a ∈ b :: t₂ := hp.subset (List.mem_cons_self a t)
          have haeqb : a = b := by
            rcases List.mem_cons.mp hain with h | h
            · exact h
            · exfalso
              have hmap : f a ∈ t₂.map f := List.mem_map_of_mem f h
              rw [← hts] at hmap
              exact hnotin hmap
          subst haeqb
          have hperm : t.Perm t₂ := hp.cons_inv
          rw [ih hperm hts hndt]

/-- Sorting is insensitive to the input order of an array whose elements
have pairwise-distinct `String(·)` images. -/
theorem sortJsArr_eq_of_perm (xs ys : List JAtom) (hp : xs.Perm ys)
    (hnd : (xs.map jsKeyAtom).Nodup) : sortJsArr xs = sortJsArr ys := by
  have hperm : (sortJsArr xs).Perm (sortJsArr ys) :=
    (List.perm_insertionSort _ xs).trans (hp.trans (List.perm_insertionSort _ ys).symm)
  have hs1 : List.Sorted (fun a b => jatomLe a b = true) (sortJsArr xs) :=
    List.sorted_insertionSort _ xs
  have hs2 : List.Sorted (fun a b => jatomLe a b = true) (sortJsArr ys) :=
    List.sorted_insertionSort _ ys
  have hm1 : List.Sorted (fun s₁ s₂ => charListLe s₁.data s₂.data = true)
      ((sortJsArr xs).map jsKeyAtom) :=
    List.Pairwise.map jsKeyAtom (fun a b h => h) hs1
  have hm2 : List.Sorted (fun s₁ s₂ => charListLe s₁.data s₂.data = true)
      ((sortJsArr ys).map jsKeyAtom) :=
    List.Pairwise.map jsKeyAtom (fun a b h => h) hs2
  have hanti : IsAntisymm String (fun s₁ s₂ => charListLe s₁.data s₂.data = true) :=
    ⟨fun a b h1 h2 => String.ext (charListLe_antisymm a.data b.data h1 h2)⟩
  have hmeq : (sortJsArr xs).map jsKeyAtom = (sortJsArr ys).map jsKeyAtom :=
    @List.eq_of_perm_of_sorted String (fun s₁ s₂ => charListLe s₁.data s₂.data = true) hanti
      _ _ (hperm.map jsKeyAtom) hm1 hm2
  have hnd1 : ((sortJsArr xs).map jsKeyAtom).Nodup :=
    (((List.perm_insertionSort _ xs).map jsKeyAtom).nodup_iff).mpr hnd
  exact eq_of_perm_of_map_eq_nodup jsKeyAtom hperm hmeq hnd1

/-- One property value rearranged: arrays may appear with their elements
in any order; scalars and `null` are unchanged. -/
inductive FieldAPerm : JField → JField → Prop
  | atom (a : JAtom) : FieldAPerm (.atom a) (.atom a)
  | null : FieldAPerm .null .null
  | arr {xs ys : List JAtom} : xs.Perm ys → FieldAPerm (.arr xs) (.arr ys)

/-- Two filters objects carrying the same sub-filters in the same property
order, with each array-valued sub-filter in any element order. -/
def ObjAPerm (o₁ o₂ : JObj) : Prop :=
  List.Forall₂ (fun f g => f.1 = g.1 ∧ FieldAPerm f.2 g.2) o₁ o₂

/-- The elements of an array-valued property have pairwise-distinct
`String(·)` images (true of every real sub-filter array: distinct region
names, tags, and so on). -/
def fieldKeysNodup : JField → Prop
  | .arr xs => (xs.map jsKeyAtom).Nodup
  | _ => True

theorem stringifyField_eq_of_aperm {f g : JField} (h : FieldAPerm f g)
    (hnd : fieldKeysNodup f) : stringifyField f = stringifyField g := by
  cases h with
  | atom a => rfl
  | null => rfl
  | arr hp =>
      show stringifyField (.arr _) = stringifyField (.arr _)
      simp only [stringifyField]
      rw [sortJsArr_eq_of_perm _ _ hp hnd]

theorem stringifyObj_eq_of_aperm : ∀ {o₁ o₂ : JObj}, ObjAPerm o₁ o₂ →
    (∀ f ∈ o₁, fieldKeysNodup f.2) → stringifyObj o₁ = stringifyObj o₂ := by
  have hmap : ∀ {o₁ o₂ : JObj}, ObjAPerm o₁ o₂ → (∀ f ∈ o₁, fieldKeysNodup f.2) →
      o₁.map (fun f => quoteJson f.1 ++ ":" ++ stringifyField f.2)
        = o₂.map (fun f => quoteJson f.1 ++ ":" ++ stringifyField f.2) := by
    intro o₁ o₂ hp
    induction hp with
    | nil => intro _; rfl
    | cons hfg htail ih =>
        intro hnd
        simp only [List.map_cons, List.cons.injEq]
        constructor
        · rw [hfg.1, stringifyField_eq_of_aperm hfg.2 (hnd _ (List.mem_cons_self _ _))]
        · exact ih fun f hf => hnd f (List.mem_cons_of_mem _ hf)
  intro o₁ o₂ hp hnd
  unfold stringifyObj
  rw [hmap hp hnd]

/-! ### Helper lemmas: the import batch loop -/

/-- The two counters of the batch loop are the per-batch sums: each batch
adds its mapped-row count to `imported` when its insert succeeds and its
full raw size to `errors` when it fails. -/
theorem importGo_counters {Row : Type} (mapRow : Row → Option TxData) (insertOk : Nat → Bool)
    (total : Nat) (remaining : List Row) (i : Nat) (store : List TxData)
    (imported errors : Nat) :
    (importGo mapRow insertOk total i remaining store imported errors).1
        = imported + importedOfBatches mapRow insertOk i (batchesOf remaining)
    ∧ (importGo mapRow insertOk total i remaining store imported errors).2.1
        = errors + errorsOfBatches mapRow insertOk i (batchesOf remaining) := by
  match remaining with
  | [] => simp [importGo, batchesOf, importedOfBatches, errorsOfBatches]
  | a :: rest =>
      by_cases hio : insertOk i
      · have IH := importGo_counters mapRow insertOk total ((a :: rest).drop 1000) (i + 1000)
          (createManySkipDup store (((a :: rest).take 1000).filterMap mapRow))
          (imported + (((a :: rest).take 1000).filterMap mapRow).length) errors
        simp only [importGo, hio, if_true, batchesOf, importedOfBatches, errorsOfBatches]
        obtain ⟨ih1, ih2⟩ := IH
        exact ⟨by omega, by omega⟩
      · have IH := importGo_counters mapRow insertOk total ((a :: rest).drop 1000) (i + 1000)
          store imported (errors + ((a :: rest).take 1000).length)
        simp only [importGo, hio, if_false, ite_false, Bool.false_eq_true, batchesOf,
          importedOfBatches, errorsOfBatches]
        obtain ⟨ih1, ih2⟩ := IH
        exact ⟨by omega, by omega⟩
termination_by remaining.length
decreasing_by
  all_goals simp [List.length_drop]
  all_goals omega

/-- The progress notifications of a loop run started at counter `i` over
`total` parsed rows are well-formed: the k-th notification carries
`processed = min (i + (k+1)·1000) total`, carries the parsed row count as
`total`, and satisfies `imported + errors ≤ processed ≤ total`. -/
def progressOk (total i : Nat) (ps : List Progress) : Prop :=
  ∀ k, k < ps.length →
    (ps.getD k ⟨0, 0, 0, 0⟩).processed = min (i + (k + 1) * 1000) total
    ∧ (ps.getD k ⟨0, 0, 0, 0⟩).total = total
    ∧ (ps.getD k ⟨0, 0, 0, 0⟩).imported + (ps.getD k ⟨0, 0, 0, 0⟩).errors
        ≤ (ps.getD k ⟨0, 0, 0, 0⟩).processed
    ∧ (ps.getD k ⟨0, 0, 0, 0⟩).processed ≤ total

theorem progressOk_nil (total i : Nat) : progressOk total i [] := by
  intro k hk
  simp at hk

theorem progressOk_cons {total i : Nat} {p : Progress} {ps : List Progress}
    (hp1 : p.processed = min (i + 1000) total) (hp2 : p.total = total)
    (hp3 : p.imported + p.errors ≤ p.processed)
    (hps : progressOk total (i + 1000) ps) : progressOk total i (p :: ps) := by
  intro k hk
  match k with
  | 0 =>
      simp only [List.getD_cons_zero]
      have hmin : (0 + 1) * 1000 = 1000 := by norm_num
      refine ⟨by rw [hmin, hp1], hp2, hp3, by rw [hp1]; exact Nat.min_le_right _ _⟩
  | k' + 1 =>
      rw [List.length_cons] at hk
      have hparts := hps k' (Nat.lt_of_succ_lt_succ hk)
      simp only [List.getD_cons_succ]
      refine ⟨?_, hparts.2.1, hparts.2.2.1, hparts.2.2.2⟩
      rw [hparts.1]
      have harith : (i + 1000) + (k' + 1) * 1000 = i + (k' + 1 + 1) * 1000 := by ring
      rw [harith]

/-- Invariants of the batch loop: one notification per batch, each
notification well-formed per `progressOk`, and the final counters bounded
by the parsed row count. -/
theorem importGo_progress {Row : Type} (mapRow : Row → Option TxData) (insertOk : Nat → Bool)
    (remaining : List Row) (total i : Nat) (store : List TxData) (imported errors : Nat)
    (out : Nat × Nat × List TxData × List Progress)
    (hout : importGo mapRow insertOk total i remaining store imported errors = out)
    (htot : total = i + remaining.length) (hle : imported + errors ≤ i) :
    out.2.2.2.length = (batchesOf remaining).length
    ∧ progressOk total i out.2.2.2
    ∧ out.1 + out.2.1 ≤ total := by
  match remaining with
  | [] =>
      subst hout
      simp only [importGo, batchesOf]
      exact ⟨rfl, progressOk_nil total i, by omega⟩
  | a :: rest =>
      subst hout
      have key : ∀ (st2 : List TxData) (imp2 err2 : Nat), imp2 + err2 ≤ min (i + 1000) total →
          (⟨min (i + 1000) total, total, imp2, err2⟩ ::
              (importGo mapRow insertOk total (i + 1000) ((a :: rest).drop 1000)
                st2 imp2 err2).2.2.2 : List Progress).length = (batchesOf (a :: rest)).length
          ∧ progressOk total i (⟨min (i + 1000) total, total, imp2, err2⟩ ::
              (importGo mapRow insertOk total (i + 1000) ((a :: rest).drop 1000)
                st2 imp2 err2).2.2.2)
          ∧ (importGo mapRow insertOk total (i + 1000) ((a :: rest).drop 1000)
                st2 imp2 err2).1
              + (importGo mapRow insertOk total (i + 1000) ((a :: rest).drop 1000)
                st2 imp2 err2).2.1 ≤ total := by
        intro st2 imp2 err2 hinv
        by_cases hrem : (a :: rest).length ≤ 1000
        · have hdrop : (a :: rest).drop 1000 = [] := List.drop_eq_nil_of_le hrem
          have hfin : imp2 + err2 ≤ total := by
            have hmr := Nat.min_le_right (i + 1000) total
            omega
          have hblen : (batchesOf (a :: rest)).length = 1 := by
            simp [batchesOf, hdrop]
          rw [hdrop]
          simp only [importGo]
          refine ⟨by rw [hblen]; rfl, ?_, hfin⟩
          exact progressOk_cons rfl rfl hinv (progressOk_nil total (i + 1000))
        · have hlen : 1000 < (a :: rest).length := by omega
          have harith : total = (i + 1000) + ((a :: rest).drop 1000).length := by
            rw [List.length_drop]
            omega
          have hle2 : imp2 + err2 ≤ i + 1000 := le_trans hinv (Nat.min_le_left _ _)
          have IH := importGo_progress mapRow insertOk ((a :: rest).drop 1000) total (i + 1000)
            st2 imp2 err2 _ rfl harith hle2
          refine ⟨?_, progressOk_cons rfl rfl hinv IH.2.1, IH.2.2⟩
          rw [List.length_cons, IH.1]
          match hd : (a :: rest).drop 1000 with
          | [] =>
              exfalso
              have hcon : (a :: rest).length ≤ 1000 := List.drop_eq_nil_iff.mp hd
              omega
          | b :: brest =>
              conv_rhs => rw [show batchesOf (a :: rest)
                = (a :: rest).take 1000 :: batchesOf ((a :: rest).drop 1000) from by
                  simp [batchesOf]]
              rw [hd]
              simp
      by_cases hio : insertOk i
      · have hinv : (imported + (((a :: rest).take 1000).filterMap mapRow).length) + errors
            ≤ min (i + 1000) total := by
          have h1 := List.length_filterMap_le mapRow ((a :: rest).take 1000)
          have h2 := List.length_take 1000 (a :: rest)
          rw [htot]
          omega
        have hk := key (createManySkipDup store (((a :: rest).take 1000).filterMap mapRow))
          (imported + (((a :: rest).take 1000).filterMap mapRow).length) errors hinv
        simp only [importGo, hio, if_true]
        exact hk
      · have hinv : imported + (errors + ((a :: rest).take 1000).length)
            ≤ min (i + 1000) total := by
          have h2 := List.length_take 1000 (a :: rest)
          rw [htot]
          omega
        have hk := key store imported (errors + ((a :: rest).take 1000).length) hinv
        simp only [importGo, hio, if_false, ite_false, Bool.false_eq_true]
        exact hk
termination_by remaining.length
decreasing_by
  all_goals simp [List.length_drop]
  all_goals omega

/-! ### Claim theorems -/

/-- A mapped row whose business identifier coincides with one already
stored. -/
def dupTx : TxData := ⟨"T1"⟩

/-- C1: evaluation of the embedded import at the failing input.  The store
already holds business identifier "T1"; a one-row file with identifier
"T1" is imported and the insert succeeds.  The skip-duplicates insert does
leave the store unchanged (no second row is created), but the returned
summary reports `imported = 1` — the source adds `transactionData.length`
instead of the insert's returned row count, so the skipped duplicate still
increases the `imported` counter, contradicting the claim that it does
not. -/
theorem C1_duplicate_row_still_counted_imported :
    importTransactionsFromBuffer some [dupTx] (fun _ => true) [dupTx] []
      = (⟨true, 1, 1, 0⟩, [dupTx], [⟨1, 1, 1, 0⟩], []) := by
  simp [importTransactionsFromBuffer, importGo, createManySkipDup]
  decide

/-- A record tagged "gift". -/
def txGift : Transaction :=
  ⟨"T1", 10, "C1", "Asha", "9991112222", "F", 30, "Toys", 2, 100, 90, "North", "P1", "E1",
   "Cash", some "gift"⟩

/-- A record tagged "home". -/
def txHome : Transaction :=
  ⟨"T2", 11, "C2", "Ben", "8883334444", "M", 40, "Decor", 3, 50, 50, "South", "P2", "E2",
   "Card", some "home"⟩

/-- A filter specification selecting only the tag "gift". -/
def fGift : Filters := ⟨none, none, none, none, some ["gift"], none, none⟩

/-- C2: evaluation at the failing input.  Under the tags sub-filter
`{tags: ["gift"]}` over a store of two records (one tagged "gift", one
tagged "home"), the read query's predicate matches exactly the "gift"
record, but `getStats` builds no condition at all from the tags sub-filter
and sums over both records: it returns 5 units / 150 gross / 10 discount,
whereas the set the read predicate matches sums to 2 units / 100 gross /
10 discount.  The tags sub-filter therefore does not restrict the stats
totals as it restricts the read query. -/
theorem C2_stats_ignores_tags_subfilter :
    matchingRecords [txGift, txHome] (buildConds "" fGift) = [txGift]
    ∧ statsConds fGift = []
    ∧ matchingRecords [txGift, txHome] (statsConds fGift) = [txGift, txHome]
    ∧ (getStatsRun (aggStorage [txGift, txHome]) 0 [] fGift).map (fun r => r.1)
        = .ok ⟨5, 150, 10⟩
    ∧ statsOfStore [txGift, txHome] (buildConds "" fGift) = ⟨2, 100, 10⟩ := by
  decide

/-- C4 counterexample: two filters objects carrying the same sub-filters
with the same values, differing only in property insertion order, produce
different cache keys — `JSON.stringify` preserves property order and
`generateKey` only canonicalizes arrays. -/
theorem C4_property_order_changes_key :
    SimpleCache.generateKey "stats"
        [("genders", JField.arr [JAtom.str "M"]), ("regions", JField.arr [JAtom.str "North"])]
      ≠ SimpleCache.generateKey "stats"
        [("regions", JField.arr [JAtom.str "North"]), ("genders", JField.arr [JAtom.str "M"])] := by
  decide

/-- C4 (amended): for every operation prefix and every pair of filters
objects with the same properties in the same insertion order whose
array-valued sub-filters hold the same values in any order (each array's
values having pairwise-distinct string images, true of the multi-select
sub-filters), `generateKey` produces the identical key string; property
insertion order, by contrast, is preserved by the serialization. -/
theorem C4_array_order_irrelevant_to_key (pre : String) (o₁ o₂ : JObj) (hp : ObjAPerm o₁ o₂)
    (hnd : ∀ f ∈ o₁, fieldKeysNodup f.2) :
    SimpleCache.generateKey pre o₁ = SimpleCache.generateKey pre o₂ := by
  unfold SimpleCache.generateKey
  rw [stringifyObj_eq_of_aperm hp hnd]

/-- C4 witness: the amended theorem applied to a concrete pair of filters
objects whose "regions" array is supplied in two different orders. -/
theorem C4_array_order_witness :
    SimpleCache.generateKey "stats" [("regions", JField.arr [JAtom.str "b", JAtom.str "a"])]
      = SimpleCache.generateKey "stats" [("regions", JField.arr [JAtom.str "a", JAtom.str "b"])] :=
  C4_array_order_irrelevant_to_key "stats" _ _
    (List.Forall₂.cons
      ⟨rfl, FieldAPerm.arr (List.Perm.swap (JAtom.str "a") (JAtom.str "b") [])⟩
      List.Forall₂.nil)
    (by
      intro f hf
      rcases List.mem_singleton.mp hf with rfl
      show ([JAtom.str "b", JAtom.str "a"].map jsKeyAtom).Nodup
      decide)

/-- C6 counterexample: a value set at time 0 with a 30-second TTL is still
returned at the exact expiry instant `now = expiresAt = 30000`, although
`now < expiresAt` fails there — the source deletes only when
`now > expiresAt`, so the claim's strict bound is wrong at the boundary. -/
theorem C6_boundary_hit_at_expiry :
    (SimpleCache.get 30000 (SimpleCache.set 0 ([] : CacheMap Nat) "k" 7 (30 * 1000)) "k").1 = some 7
    ∧ ¬((30000 : Int) < 0 + 30 * 1000) := by
  decide

/-- C6 (amended): `get` returns the stored value exactly when an entry for
the key is present and `now ≤ expiresAt` (non-strict); on an expired entry
(`expiresAt < now`) it deletes the entry and returns no value; on a
missing key it returns no value and leaves the cache unchanged; and a
value set with a 30-second TTL is retrievable 29 seconds later and absent
31 seconds later. -/
theorem C6_get_returns_unexpired {α : Type} (now : Int) (m : CacheMap α) (key : String) :
    (∀ v : α, (SimpleCache.get now m key).1 = some v
        ↔ ∃ e, SimpleCache.mapFind m key = some e ∧ e.value = v ∧ now ≤ e.expiresAt)
    ∧ (∀ e, SimpleCache.mapFind m key = some e → e.expiresAt < now →
        SimpleCache.get now m key = (none, SimpleCache.mapDelete m key))
    ∧ (SimpleCache.mapFind m key = none → SimpleCache.get now m key = (none, m))
    ∧ (∀ (t : Int) (v : α),
        (SimpleCache.get (t + 29000) (SimpleCache.set t m key v (30 * 1000)) key).1 = some v
        ∧ (SimpleCache.get (t + 31000) (SimpleCache.set t m key v (30 * 1000)) key).1 = none) := by
  refine ⟨?_, ?_, ?_, ?_⟩
  · intro v
    cases hf : SimpleCache.mapFind m key with
    | none => simp [SimpleCache.get, hf]
    | some e =>
        simp only [SimpleCache.get, hf]
        by_cases hexp : now > e.expiresAt
        · rw [if_pos hexp]
          simp only [Option.some.injEq]
          constructor
          · intro hfalse
            exact absurd hfalse (by simp)
          · rintro ⟨e2, he2, _, hle2⟩
            cases he2
            omega
        · rw [if_neg hexp]
          simp only [Option.some.injEq]
          constructor
          · intro hv
            exact ⟨e, rfl, hv, by omega⟩
          · rintro ⟨e2, he2, hval, _⟩
            cases he2
            exact hval
  · intro e hf hexp
    simp only [SimpleCache.get, hf]
    rw [if_pos (by omega : now > e.expiresAt)]
  · intro hf
    simp only [SimpleCache.get, hf]
  · intro t v
    have hfind := SimpleCache.mapFind_mapSet_self m key (⟨v, t + 30 * 1000⟩ : CacheEntry α)
    constructor
    · simp only [SimpleCache.get, SimpleCache.set, hfind]
      rw [if_neg (by omega : ¬((t : Int) + 29000 > t + 30 * 1000))]
    · simp only [SimpleCache.get, SimpleCache.set, hfind]
      rw [if_pos (by omega : (t : Int) + 31000 > t + 30 * 1000)]

/-- C6 witness: the amended theorem applied to a concrete cache: a fresh
entry set at time 0 is a hit at 29 seconds and a miss at 31 seconds, an
entry that expired at time 10 is deleted when read at time 11, and a
missing key misses. -/
theorem C6_get_witness :
    (SimpleCache.get 29000 (SimpleCache.set 0 ([] : CacheMap Nat) "k" 7 (30 * 1000)) "k").1 = some 7
    ∧ (SimpleCache.get 31000 (SimpleCache.set 0 ([] : CacheMap Nat) "k" 7 (30 * 1000)) "k").1 = none
    ∧ SimpleCache.get 11 ([("k", ⟨5, 10⟩)] : CacheMap Nat) "k"
        = (none, SimpleCache.mapDelete [("k", ⟨5, 10⟩)] "k")
    ∧ SimpleCache.get 0 ([] : CacheMap Nat) "k" = (none, []) := by
  refine ⟨?_, ?_, ?_, ?_⟩
  · have h := ((C6_get_returns_unexpired 29000 ([] : CacheMap Nat) "k").2.2.2 0 7).1
    simpa using h
  · have h := ((C6_get_returns_unexpired 31000 ([] : CacheMap Nat) "k").2.2.2 0 7).2
    simpa using h
  · exact (C6_get_returns_unexpired 11 ([("k", ⟨5, 10⟩)] : CacheMap Nat) "k").2.1 ⟨5, 10⟩
      (by decide) (by decide)
  · exact (C6_get_returns_unexpired 0 ([] : CacheMap Nat) "k").2.2.1 (by decide)

/-- C8: for every search term of length at least 2 composed entirely of
digits, the built `AND` list is exactly a phone-number prefix condition on
the term followed by the sub-filter conditions, and no customer-name
condition occurs anywhere in it. -/
theorem C8_digit_search_constrains_phone_only (search : String) (filters : Filters)
    (h2 : 2 ≤ search.length) (hd : search.data.all Char.isDigit) :
    buildConds search filters = Cond.phoneStartsWith search :: filterConds filters
    ∧ ∀ s, Cond.nameStartsWithCI s ∉ buildConds search filters := by
  have hs := searchConds_digits search h2 hd
  constructor
  · unfold buildConds
    rw [hs]
    rfl
  · intro s hmem
    unfold buildConds at hmem
    rw [hs] at hmem
    rcases List.mem_append.mp hmem with h | h
    · simp at h
    · exact nameCond_not_mem_filterConds filters s h

/-- C8 witness: the theorem applied to the concrete all-digit term "12". -/
theorem C8_digit_search_witness :
    buildConds "12" emptyFilters = Cond.phoneStartsWith "12" :: filterConds emptyFilters :=
  (C8_digit_search_constrains_phone_only "12" emptyFilters (by decide) (by decide)).1

/-- A storage collaborator whose every operation exceeds the 15-second
deadline and eventually settles with a rejection. -/
def slowFailStorage : Storage where
  findMany := fun _ _ _ _ => ⟨true, .error "Query timeout"⟩
  count := fun _ => ⟨true, .error "Query timeout"⟩
  aggregate := fun _ => ⟨true, .error "Query timeout"⟩

/-- C3 counterexample: on the stats path a storage operation that exceeds
the 15-second deadline IS surfaced as an error to the caller — `getStats`
wraps its aggregate in no deadline race and no catch, so nothing degrades
to a zero-count result; it rejects with the storage error instead. -/
theorem C3_stats_timeout_is_surfaced :
    getStatsRun slowFailStorage 0 [] emptyFilters = .error "Query timeout" := by
  decide

/-- C3 (amended): on the read path a storage operation that exceeds the
15-second deadline is never surfaced: the query returns an empty page with
`totalCount = 0` and `totalPages = 0` whether the row fetch or the count
tripped the deadline, and a settled failure whose message does not mention
a timeout propagates from either operation; the stats path, by contrast,
has no deadline handling: every storage failure propagates to the caller,
and a slow-but-successful aggregate yields the true totals rather than a
degraded zero-count result. -/
theorem C3_timeout_degrades_only_read_path (page pageSize : Int) (search : String)
    (filters : Filters) (sortField sortOrder : String) (db : Storage) (now : Int)
    (cacheSt : CacheMap StatsResult) :
    ((db.findMany (buildConds search filters) (buildOrderBy sortField sortOrder)
        ((page - 1) * pageSize) pageSize).slow = true →
      getTransactionsRun page pageSize search filters sortField sortOrder db
        = .ok ⟨emptyPage page pageSize, false⟩)
    ∧ (∀ txs, db.findMany (buildConds search filters) (buildOrderBy sortField sortOrder)
        ((page - 1) * pageSize) pageSize = ⟨false, .ok txs⟩ →
      ¬((txs.length : Int) < pageSize ∧ (page - 1) * pageSize = 0) →
      (db.count (buildConds search filters)).slow = true →
      getTransactionsRun page pageSize search filters sortField sortOrder db
        = .ok ⟨emptyPage page pageSize, true⟩)
    ∧ (∀ m, db.findMany (buildConds search filters) (buildOrderBy sortField sortOrder)
        ((page - 1) * pageSize) pageSize = ⟨false, .error m⟩ →
      isTimeoutMessage m = false →
      getTransactionsRun page pageSize search filters sortField sortOrder db = .error m)
    ∧ (∀ txs m, db.findMany (buildConds search filters) (buildOrderBy sortField sortOrder)
        ((page - 1) * pageSize) pageSize = ⟨false, .ok txs⟩ →
      ¬((txs.length : Int) < pageSize ∧ (page - 1) * pageSize = 0) →
      db.count (buildConds search filters) = ⟨false, .error m⟩ →
      isTimeoutMessage m = false →
      getTransactionsRun page pageSize search filters sortField sortOrder db = .error m)
    ∧ (∀ m, (SimpleCache.get now cacheSt
          (SimpleCache.generateKey "stats" (filtersToJObj filters))).1 = none →
      (db.aggregate (statsConds filters)).result = .error m →
      getStatsRun db now cacheSt filters = .error m)
    ∧ (∀ sums, (SimpleCache.get now cacheSt
          (SimpleCache.generateKey "stats" (filtersToJObj filters))).1 = none →
      db.aggregate (statsConds filters) = ⟨true, .ok sums⟩ →
      getStatsRun db now cacheSt filters
        = .ok (⟨sums.quantity, sums.totalAmount, sums.totalAmount - sums.finalAmount⟩,
            SimpleCache.set now (SimpleCache.get now cacheSt
              (SimpleCache.generateKey "stats" (filtersToJObj filters))).2
              (SimpleCache.generateKey "stats" (filtersToJObj filters))
              ⟨sums.quantity, sums.totalAmount, sums.totalAmount - sums.finalAmount⟩
              (30 * 1000), true)) := by
  have htm : isTimeoutMessage "Query timeout" = true := by decide
  refine ⟨?_, ?_, ?_, ?_, ?_, ?_⟩
  · intro hslow
    simp only [getTransactionsRun, race, hslow, if_true, htm]
  · intro txs hfind hcond hslow
    simp only [getTransactionsRun, race, hfind, if_false, ite_false, Bool.false_eq_true]
    rw [if_neg hcond]
    simp only [hslow, if_true, htm]
  · intro m hfind hnt
    simp only [getTransactionsRun, race, hfind, if_false, ite_false, Bool.false_eq_true, hnt]
  · intro txs m hfind hcond hcount hnt
    simp only [getTransactionsRun, race, hfind, if_false, ite_false, Bool.false_eq_true]
    rw [if_neg hcond]
    simp only [hcount, if_false, ite_false, Bool.false_eq_true, hnt]
  · intro m hmiss herr
    simp only [getStatsRun, hmiss, awaitOp, herr]
  · intro sums hmiss hagg
    simp only [getStatsRun, hmiss, awaitOp, hagg]

/-- A storage collaborator that settles fast but with a connectivity
failure on every operation. -/
def connFailStorage : Storage where
  findMany := fun _ _ _ _ => ⟨false, .error "connection refused"⟩
  count := fun _ => ⟨false, .error "connection refused"⟩
  aggregate := fun _ => ⟨false, .error "connection refused"⟩

/-- C3 witness: the amended theorem applied to concrete storage
collaborators — a deadline-tripping fetch degrades the read path to an
empty page, while a non-timeout failure propagates from the read path and
every failure propagates from the stats path. -/
theorem C3_timeout_witness :
    getTransactionsRun 1 10 "" emptyFilters "date" "asc" slowFailStorage
      = .ok ⟨emptyPage 1 10, false⟩
    ∧ getTransactionsRun 1 10 "" emptyFilters "date" "asc" connFailStorage
      = .error "connection refused"
    ∧ getStatsRun connFailStorage 0 [] emptyFilters = .error "connection refused" := by
  refine ⟨?_, ?_, ?_⟩
  · exact (C3_timeout_degrades_only_read_path 1 10 "" emptyFilters "date" "asc"
      slowFailStorage 0 []).1 rfl
  · exact (C3_timeout_degrades_only_read_path 1 10 "" emptyFilters "date" "asc"
      connFailStorage 0 []).2.2.1 "connection refused" rfl (by decide)
  · exact (C3_timeout_degrades_only_read_path 1 10 "" emptyFilters "date" "asc"
      connFailStorage 0 []).2.2.2.2.1 "connection refused" (by decide) rfl

/-- C5: when the row fetch settles successfully, requesting the first page
and getting back fewer rows than the page size makes the returned
`totalCount` the number of fetched rows, with no count query issued (the
conclusion holds whatever `db.count` would do, and the run reports the
count query unused); for any other page, or a full first page, the
returned `totalCount` is the result of the count query over the same
`where` clause the fetch used — here instantiated with a count that
honestly counts the records of a store matching that clause. -/
theorem C5_first_page_total_inference (page pageSize : Int) (search : String) (filters : Filters)
    (sortField sortOrder : String) (db : Storage) (txs : List Transaction)
    (store : List Transaction)
    (hfind : db.findMany (buildConds search filters) (buildOrderBy sortField sortOrder)
      ((page - 1) * pageSize) pageSize = ⟨false, .ok txs⟩)
    (hps : 1 ≤ pageSize) :
    (page = 1 → (txs.length : Int) < pageSize →
      getTransactionsRun page pageSize search filters sortField sortOrder db
        = .ok ⟨⟨txs, ⟨page, pageSize, (txs.length : Int),
            ceilDivInt (txs.length : Int) pageSize⟩⟩, false⟩)
    ∧ (db.count (buildConds search filters)
          = ⟨false, .ok ((matchingRecords store (buildConds search filters)).length : Int)⟩ →
      (2 ≤ page ∨ pageSize ≤ (txs.length : Int)) →
      getTransactionsRun page pageSize search filters sortField sortOrder db
        = .ok ⟨⟨txs, ⟨page, pageSize,
            ((matchingRecords store (buildConds search filters)).length : Int),
            ceilDivInt ((matchingRecords store (buildConds search filters)).length : Int)
              pageSize⟩⟩, true⟩) := by
  constructor
  · intro hp1 hlt
    subst hp1
    simp only [getTransactionsRun, race, hfind, if_false, ite_false, Bool.false_eq_true]
    rw [if_pos ⟨hlt, by norm_num⟩]
  · intro hcount hor
    have hcond : ¬((txs.length : Int) < pageSize ∧ (page - 1) * pageSize = 0) := by
      rintro ⟨hl, hskip⟩
      rcases hor with hp2 | hfull
      · have hpos : 0 < (page - 1) * pageSize :=
          mul_pos (by omega) (by omega)
        omega
      · omega
    simp only [getTransactionsRun, race, hfind, if_false, ite_false, Bool.false_eq_true]
    rw [if_neg hcond]
    simp only [hcount, if_false, ite_false, Bool.false_eq_true]

/-- C5 witness: the theorem applied to a concrete storage collaborator
with one stored record: page 1 with page size 10 returns an under-full
page and infers `totalCount = 1` without the count query; page 2 issues
the count query over the same predicate and reports its result. -/
theorem C5_first_page_witness :
    getTransactionsRun 1 10 "" emptyFilters "customerName" "asc"
        (aggStorage [txGift]) = .ok ⟨⟨[], ⟨1, 10, 0, 0⟩⟩, false⟩
    ∧ getTransactionsRun 2 10 "" emptyFilters "customerName" "asc"
        (aggStorage [txGift]) = .ok ⟨⟨[], ⟨2, 10, 1, 1⟩⟩, true⟩ := by
  constructor
  · have h := (C5_first_page_total_inference 1 10 "" emptyFilters "customerName" "asc"
      (aggStorage [txGift]) [] [txGift] rfl (by norm_num)).1 rfl (by norm_num)
    simpa using h
  · have h := (C5_first_page_total_inference 2 10 "" emptyFilters "customerName" "asc"
      (aggStorage [txGift]) [] [txGift] rfl (by norm_num)).2 rfl (Or.inl (by norm_num))
    simpa using h

/-- C7: on a cache miss (with the honest single-pass aggregate over a
store), `getStats` returns the three totals over the records matching its
`where` clause and caches them under the generated key with a 30-second
TTL, touching storage once; on a cache hit the cached value comes back
with storage untouched.  The reported totals are the sum of quantities,
the sum of gross amounts, and the sum of gross minus the sum of net — the
latter equal to summing per-record gross − net. -/
theorem C7_stats_aggregate_and_cache (store : List Transaction) (now : Int)
    (cacheSt : CacheMap StatsResult) (filters : Filters) :
    ((SimpleCache.get now cacheSt
        (SimpleCache.generateKey "stats" (filtersToJObj filters))).1 = none →
      getStatsRun (aggStorage store) now cacheSt filters
        = .ok (statsOfStore store (statsConds filters),
            SimpleCache.set now
              (SimpleCache.get now cacheSt
                (SimpleCache.generateKey "stats" (filtersToJObj filters))).2
              (SimpleCache.generateKey "stats" (filtersToJObj filters))
              (statsOfStore store (statsConds filters)) (30 * 1000), true))
    ∧ (∀ v, (SimpleCache.get now cacheSt
        (SimpleCache.generateKey "stats" (filtersToJObj filters))).1 = some v →
      getStatsRun (aggStorage store) now cacheSt filters
        = .ok (v, (SimpleCache.get now cacheSt
            (SimpleCache.generateKey "stats" (filtersToJObj filters))).2, false))
    ∧ (statsOfStore store (statsConds filters)).totalUnits
        = ((matchingRecords store (statsConds filters)).map (fun t => t.quantity)).sum
    ∧ (statsOfStore store (statsConds filters)).totalAmount
        = ((matchingRecords store (statsConds filters)).map (fun t => t.totalAmount)).sum
    ∧ (statsOfStore store (statsConds filters)).totalDiscount
        = ((matchingRecords store (statsConds filters)).map (fun t => t.totalAmount)).sum
          - ((matchingRecords store (statsConds filters)).map (fun t => t.finalAmount)).sum
    ∧ (statsOfStore store (statsConds filters)).totalDiscount
        = ((matchingRecords store (statsConds filters)).map
            (fun t => t.totalAmount - t.finalAmount)).sum := by
  refine ⟨?_, ?_, rfl, rfl, rfl, (sum_map_sub_tx _).symm⟩
  · intro hmiss
    simp only [getStatsRun, hmiss, aggStorage_aggregate, awaitOp]
    rfl
  · intro v hv
    simp only [getStatsRun, hv]

/-- C7 witness: the theorem applied to the concrete two-record store — a
miss computes and caches the totals for 30 seconds; a later hit within the
TTL returns the cached value without touching storage. -/
theorem C7_stats_cache_witness :
    getStatsRun (aggStorage [txGift, txHome]) 0 [] fGift
      = .ok (statsOfStore [txGift, txHome] (statsConds fGift),
          SimpleCache.set 0 []
            (SimpleCache.generateKey "stats" (filtersToJObj fGift))
            (statsOfStore [txGift, txHome] (statsConds fGift)) (30 * 1000), true)
    ∧ getStatsRun (aggStorage [txGift, txHome]) 29000
        (SimpleCache.set 0 []
          (SimpleCache.generateKey "stats" (filtersToJObj fGift))
          (⟨5, 150, 10⟩ : StatsResult) (30 * 1000)) fGift
      = .ok (⟨5, 150, 10⟩,
          (SimpleCache.get 29000
            (SimpleCache.set 0 []
              (SimpleCache.generateKey "stats" (filtersToJObj fGift))
              (⟨5, 150, 10⟩ : StatsResult) (30 * 1000))
            (SimpleCache.generateKey "stats" (filtersToJObj fGift))).2, false) := by
  constructor
  · exact (C7_stats_aggregate_and_cache [txGift, txHome] 0 [] fGift).1 rfl
  · exact (C7_stats_aggregate_and_cache [txGift, txHome] 29000 _ fGift).2.1
      ⟨5, 150, 10⟩ (by decide)

/-- C9: for every ingestion run, the returned summary reports success, the
parsed row count, and counters that are exactly the per-batch sums: a
batch whose insert operation fails as a whole contributes its full raw
size to `errors` (and nothing to `imported`), while every other batch
contributes its mapped-row count to `imported` — and the loop still
processes every batch (one progress notification per batch), so a failed
batch aborts nothing. -/
theorem C9_failed_batch_counted_pipeline_continues {Row : Type} (mapRow : Row → Option TxData)
    (records : List Row) (insertOk : Nat → Bool) (store : List TxData)
    (cacheSt : CacheMap StatsResult) :
    (importTransactionsFromBuffer mapRow records insertOk store cacheSt).1
      = ⟨true, records.length, importedOfBatches mapRow insertOk 0 (batchesOf records),
          errorsOfBatches mapRow insertOk 0 (batchesOf records)⟩
    ∧ (importTransactionsFromBuffer mapRow records insertOk store cacheSt).2.2.1.length
        = (batchesOf records).length := by
  have hc := importGo_counters mapRow insertOk records.length records 0 store 0 0
  have hp := importGo_progress mapRow insertOk records records.length 0 store 0 0
    _ rfl (by omega) (by omega)
  constructor
  · simp only [importTransactionsFromBuffer]
    rw [hc.1, hc.2]
    simp
  · simp only [importTransactionsFromBuffer]
    exact hp.1

/-- C10: every ingestion run emits one progress notification per batch;
the k-th notification carries `processed = min (k·1000 + 1000, n)` and
`total = n` over the `n` parsed rows, and satisfies
`imported + errors ≤ processed ≤ n`; the final summary satisfies
`imported + errors ≤ totalRecords`. -/
theorem C10_progress_monotone_invariant {Row : Type} (mapRow : Row → Option TxData)
    (records : List Row) (insertOk : Nat → Bool) (store : List TxData)
    (cacheSt : CacheMap StatsResult) :
    (importTransactionsFromBuffer mapRow records insertOk store cacheSt).2.2.1.length
        = (batchesOf records).length
    ∧ progressOk records.length 0
        (importTransactionsFromBuffer mapRow records insertOk store cacheSt).2.2.1
    ∧ (importTransactionsFromBuffer mapRow records insertOk store cacheSt).1.imported
        + (importTransactionsFromBuffer mapRow records insertOk store cacheSt).1.errors
        ≤ (importTransactionsFromBuffer mapRow records insertOk store cacheSt).1.totalRecords := by
  have hp := importGo_progress mapRow insertOk records records.length 0 store 0 0
    _ rfl (by omega) (by omega)
  refine ⟨?_, ?_, ?_⟩
  · simp only [importTransactionsFromBuffer]
    exact hp.1
  · simp only [importTransactionsFromBuffer]
    exact hp.2.1
  · simp only [importTransactionsFromBuffer]
    exact hp.2.2

/-- C10 witness: a concrete one-batch run over two parsed rows — the
single notification reports `processed = min(1000, 2) = 2`, `total = 2`,
and counters bounded by `processed`. -/
theorem C10_progress_witness :
    ((importTransactionsFromBuffer some [(⟨"A"⟩ : TxData), (⟨"B"⟩ : TxData)]
        (fun _ => true) [] []).2.2.1.getD 0 ⟨0, 0, 0, 0⟩).processed = 2
    ∧ ((importTransactionsFromBuffer some [(⟨"A"⟩ : TxData), (⟨"B"⟩ : TxData)]
        (fun _ => true) [] []).2.2.1.getD 0 ⟨0, 0, 0, 0⟩).total = 2 := by
  have hlen : (importTransactionsFromBuffer some [(⟨"A"⟩ : TxData), (⟨"B"⟩ : TxData)]
      (fun _ => true) [] ([] : CacheMap StatsResult)).2.2.1.length
      = (batchesOf [(⟨"A"⟩ : TxData), (⟨"B"⟩ : TxData)]).length :=
    (C10_progress_monotone_invariant some _ (fun _ => true) [] []).1
  have hblen : (batchesOf [(⟨"A"⟩ : TxData), (⟨"B"⟩ : TxData)]).length = 1 := by
    simp [batchesOf]
  have hk : 0 < (importTransactionsFromBuffer some [(⟨"A"⟩ : TxData), (⟨"B"⟩ : TxData)]
      (fun _ => true) [] ([] : CacheMap StatsResult)).2.2.1.length := by
    rw [hlen, hblen]
    norm_num
  have h := (C10_progress_monotone_invariant some
    [(⟨"A"⟩ : TxData), (⟨"B"⟩ : TxData)] (fun _ => true) [] []).2.1 0 hk
  refine ⟨?_, ?_⟩
  · have h1 := h.1
    simp only [List.length_cons, List.length_nil] at h1
    omega
  · exact h.2.1
